import Mathlib

/-!
Verification of the periodic tiling and bond-stitching recipe
(`mbuild/lib/recipes/tiled_compound.py`, class `TiledCompound`).

The embedding models positions as exact rationals.  All rational
arithmetic is expressed through kernel-computable wrappers (`qadd`,
`qsub`, `qmul`, `qhalf`, `qabs`, `qofNat`, `qofInt`, `qfloorQuot`)
built on `mkRat`, so that concrete runs of the model evaluate by
`rfl`/`decide`; bridge lemmas identify the wrappers with the ordinary
field operations on `ℚ`.

Real-valued comparisons of the source (`dist > dist_thresh` on
Euclidean norms) are encoded on squared distances: for a nonnegative
threshold `t`, `dist > t ↔ dist² > t²`, which avoids square roots
while preserving the source's semantics (box lengths are positive in
any valid box).
-/

/-- Kernel-computable addition on `ℚ` (same value as `· + ·`). -/
def qadd (a b : ℚ) : ℚ := mkRat (a.num * b.den + b.num * a.den) (a.den * b.den)

/-- Kernel-computable subtraction on `ℚ` (same value as `· - ·`). -/
def qsub (a b : ℚ) : ℚ := mkRat (a.num * b.den - b.num * a.den) (a.den * b.den)

/-- Kernel-computable multiplication on `ℚ` (same value as `· * ·`). -/
def qmul (a b : ℚ) : ℚ := mkRat (a.num * b.num) (a.den * b.den)

/-- Kernel-computable halving on `ℚ` (same value as `· / 2`). -/
def qhalf (a : ℚ) : ℚ := mkRat a.num (a.den * 2)

/-- Kernel-computable absolute value on `ℚ`. -/
def qabs (a : ℚ) : ℚ := if a < 0 then mkRat (-a.num) a.den else a

/-- Kernel-computable embedding of `ℕ` into `ℚ`. -/
def qofNat (n : ℕ) : ℚ := mkRat n 1

/-- Kernel-computable embedding of `ℤ` into `ℚ`. -/
def qofInt (z : ℤ) : ℚ := mkRat z 1

/-- Kernel-computable `⌊a / L⌋` for `L > 0` (floor of the exact ratio). -/
def qfloorQuot (a L : ℚ) : ℤ := (a.num * (L.den : ℤ)) / ((a.den : ℤ) * L.num)

theorem qadd_eq (a b : ℚ) : qadd a b = a + b := (Rat.add_def' a b).symm

theorem qsub_eq (a b : ℚ) : qsub a b = a - b := (Rat.sub_def' a b).symm

theorem qmul_eq (a b : ℚ) : qmul a b = a * b := (Rat.mul_eq_mkRat a b).symm

theorem qofNat_eq (n : ℕ) : qofNat n = (n : ℚ) := by
  unfold qofNat
  rw [Rat.mkRat_eq_div]
  simp

theorem qhalf_eq (a : ℚ) : qhalf a = a / 2 := by
  unfold qhalf
  rw [Rat.mkRat_eq_div]
  push_cast
  rw [div_mul_eq_div_div, Rat.num_div_den]

theorem qabs_eq (a : ℚ) : qabs a = |a| := by
  unfold qabs
  split
  · next h =>
    rw [abs_of_neg h]
    rw [show mkRat (-a.num) a.den = -mkRat a.num a.den from (Rat.neg_mkRat _ _).symm]
    rw [Rat.mkRat_self]
  · next h => rw [abs_of_nonneg (not_lt.mp h)]

/-- A 3D point / vector with rational coordinates. -/
structure Vec3 where
  x : ℚ
  y : ℚ
  z : ℚ
deriving DecidableEq

instance : Inhabited Vec3 := ⟨⟨0, 0, 0⟩⟩

/-- A simulation box: three edge lengths and three angles
(`mbuild.Box`, consumed through `lengths` and `angles` only). -/
structure Box where
  lengths : Vec3
  angles : Vec3
deriving DecidableEq

instance : Inhabited Box := ⟨⟨default, default⟩⟩

/-- The template tile (an `mb.Compound` as consumed by `TiledCompound`):
particle positions in enumeration order, the transient per-particle
`index` attribute (parallel to `particles`; `none` when the attribute is
unset), bonds as ordered pairs of particle enumeration indices, the
per-axis periodicity flags, an optional box, and a name. -/
structure Tile where
  particles : List Vec3
  indices : List (Option ℕ)
  bonds : List (ℕ × ℕ)
  periodicity : Bool × Bool × Bool
  box : Option Box
  name : String
deriving DecidableEq

instance : Inhabited Tile := ⟨⟨[], [], [], (false, false, false), none, ""⟩⟩

/-- A particle of the output structure: its position and its transient
template index (`particle.index` in the source; `none` when unset). -/
structure OutParticle where
  pos : Vec3
  tmplIdx : Option ℕ
deriving DecidableEq

instance : Inhabited OutParticle := ⟨⟨default, none⟩⟩

/-- One child tile of the output structure: its grid coordinate, whether
it is an independent clone of the template (`clone(tile)`) or the
template object itself, and its label. -/
structure TileInstance where
  ijk : ℕ × ℕ × ℕ
  isClone : Bool
  label : String
deriving DecidableEq

instance : Inhabited TileInstance := ⟨⟨(0, 0, 0), false, ""⟩⟩

/-- The `TiledCompound` object under construction: name, periodicity,
box, child tiles, the flat particle list (global index = position in
this list), the bond list (ordered pairs of global particle indices),
and whether the `particle_kdtree` attribute is currently present. -/
structure TiledState where
  name : String
  periodicity : Bool × Bool × Bool
  box : Box
  tiles : List TileInstance
  particles : List OutParticle
  bonds : List (ℕ × ℕ)
  hasKdtree : Bool
deriving DecidableEq

instance : Inhabited TiledState :=
  ⟨⟨"", (false, false, false), default, [], [], [], false⟩⟩

/-- Result of running `TiledCompound.__init__`: success, the
`ValueError` raised by the configuration checks, or the `MBuildError`
raised during bond stitching.  Each constructor carries the state of
the template tile after the call (the source mutates it), and the
failure constructors carry the state of the partially built object at
the moment the exception is raised. -/
inductive TCResult where
  | ok (st : TiledState) (tileAfter : Tile)
  | configError (tileAfter : Tile)
  | stitchError (st : TiledState) (tileAfter : Tile)
deriving DecidableEq

instance : Inhabited TCResult := ⟨.configError default⟩

/-- The template tile's state after the call. -/
def TCResult.tileAfter : TCResult → Tile
  | .ok _ t => t
  | .configError t => t
  | .stitchError _ t => t

/-- Vector addition (particle translation). -/
def vadd (p o : Vec3) : Vec3 := ⟨qadd p.x o.x, qadd p.y o.y, qadd p.z o.z⟩

/-- Squared Euclidean distance of two raw positions
(`np.linalg.norm(particle1.pos - particle2.pos)`, squared). -/
def distSqRaw (a b : Vec3) : ℚ :=
  qadd (qadd (qmul (qsub a.x b.x) (qsub a.x b.x)) (qmul (qsub a.y b.y) (qsub a.y b.y)))
    (qmul (qsub a.z b.z) (qsub a.z b.z))

/-- Modelled from the spec: per-axis separation used by the external
collaborator `min_periodic_distance` (not under `src/`).  Along a
periodic axis of length `L` it is the minimum-image separation
`min over n of (the distance from `|x-y|` to `n*L`)`, computed by reducing
`|x - y|` modulo `L`; along a non-periodic axis it is the raw
separation `|x - y|`. -/
def axisSep (L : ℚ) (per : Bool) (x y : ℚ) : ℚ :=
  let d := qabs (qsub x y)
  if per then
    let r := qsub d (qmul L (qofInt (qfloorQuot d L)))
    min r (qsub L r)
  else d

/-- Modelled from the spec: squared minimum-image distance of two
points under a box `L` with periodicity flags `per`
(`Compound.min_periodic_distance`, an external collaborator). -/
def minImageSq (L : Vec3) (per : Bool × Bool × Bool) (a b : Vec3) : ℚ :=
  let dx := axisSep L.x per.1 a.x b.x
  let dy := axisSep L.y per.2.1 a.y b.y
  let dz := axisSep L.z per.2.2 a.z b.z
  qadd (qadd (qmul dx dx) (qmul dy dy)) (qmul dz dz)

/-- Comparison `dist > thresh` with `dist` given squared: `none` stands for the
infinite threshold (`np.inf`), which nothing exceeds; for a present
threshold `t ≥ 0` the test is `dist² > t²`. -/
def exceedsSq (d2 : ℚ) : Option ℚ → Bool
  | none => false
  | some t => decide (qmul t t < d2)

/-- The `np.min` of up to three values where a missing value is `np.inf`. -/
def optMin2 : Option ℚ → Option ℚ → Option ℚ
  | none, b => b
  | some a, none => some a
  | some a, some b => some (min a b)

/-- Lines 78-84 of the source: per-axis threshold candidates (`np.inf`
for non-periodic axes, the box length for periodic ones), their
minimum, halved.  `none` is the infinite threshold. -/
def distThreshCode (per : Bool × Bool × Bool) (L : Vec3) : Option ℚ :=
  (optMin2 (optMin2 (if per.1 then some L.x else none) (if per.2.1 then some L.y else none))
      (if per.2.2 then some L.z else none)).map qhalf

/-- The spec's own words for `dist_thresh` ("half the minimum template
box length along axes where the template is periodic; if no axis is
periodic, treat as infinite"), for comparison with `distThreshCode`. -/
def distThreshSpec (per : Bool × Bool × Bool) (L : Vec3) : Option ℚ :=
  match (if per.1 then [L.x] else []) ++ (if per.2.1 then [L.y] else []) ++
      (if per.2.2 then [L.z] else []) with
  | [] => none
  | v :: vs => some (qhalf (vs.foldl min v))

example : distThreshCode (true, false, true) ⟨6, 1, 4⟩ = some 2 := by decide
example : distThreshCode (false, false, false) ⟨6, 1, 4⟩ = none := by decide
example : axisSep 8 true 0 7 = 1 := by decide
example : minImageSq ⟨8, 10, 10⟩ (true, false, false) ⟨0, 0, 0⟩ ⟨7, 0, 0⟩ = 1 := by decide

/-- The grid `itertools.product(range(nx), range(ny), range(nz))` in the source's
iteration order (last coordinate fastest). -/
def gridCoords (n : ℕ × ℕ × ℕ) : List (ℕ × ℕ × ℕ) :=
  (List.range n.1).flatMap fun i =>
    (List.range n.2.1).flatMap fun j =>
      (List.range n.2.2).map fun k => (i, j, k)

/-- The translation `np.multiply(ijk, tile.box.lengths)` applied to the
replica at grid coordinate `c`. -/
def offsetOf (c : ℕ × ℕ × ℕ) (L : Vec3) : Vec3 :=
  ⟨qmul (qofNat c.1) L.x, qmul (qofNat c.2.1) L.y, qmul (qofNat c.2.2) L.z⟩

/-- The particles of `clone(tile)` translated to grid coordinate `c`:
template particle `t` keeps its assigned index `t` and is shifted by
`offsetOf c L`. -/
def replicaParticles (tile : Tile) (L : Vec3) (c : ℕ × ℕ × ℕ) : List OutParticle :=
  (List.range tile.particles.length).map fun t =>
    { pos := vadd (tile.particles.getD t default) (offsetOf c L), tmplIdx := some t }

/-- All particles of the replicated structure, replica-major in the
grid iteration order; the global index of template particle `t` of
replica `r` is `r * P + t`. -/
def replicatedParticles (tile : Tile) (n : ℕ × ℕ × ℕ) (L : Vec3) : List OutParticle :=
  (gridCoords n).flatMap (replicaParticles tile L)

/-- All bonds of the replicated structure: each replica contributes the
template bonds shifted into its own block of global indices. -/
def replicatedBonds (tile : Tile) (n : ℕ × ℕ × ℕ) : List (ℕ × ℕ) :=
  (List.range (gridCoords n).length).flatMap fun r =>
    tile.bonds.map fun ab =>
      (r * tile.particles.length + ab.1, r * tile.particles.length + ab.2)

/-- Lines 87-90 of the source: the set of `(index, index)` pairs of
template bonds whose raw endpoint distance exceeds `dist_thresh`. -/
def periodicBondsOf (tile : Tile) (thresh : Option ℚ) : List (ℕ × ℕ) :=
  tile.bonds.filter fun ab =>
    exceedsSq (distSqRaw (tile.particles.getD ab.1 default) (tile.particles.getD ab.2 default))
      thresh

/-- Lines 100-107 of the source: the bond's endpoint indices, in either
order, are a member of `periodic_bonds`.  An unset index (`none`) never
matches, as `None` is never a member of the Python set of `int` pairs. -/
def pairInPB (pb : List (ℕ × ℕ)) (i1 i2 : Option ℕ) : Bool :=
  match i1, i2 with
  | some a, some b => pb.contains (a, b) || pb.contains (b, a)
  | _, _ => false

/-- Python `set.add`: insert into a list-as-set, keeping it duplicate free. -/
def setInsert (e : ℕ × ℕ) (s : List (ℕ × ℕ)) : List (ℕ × ℕ) :=
  if s.contains e then s else s ++ [e]

/-- Modelled from the spec: `PeriodicKDTree.query` (the Periodic
Spatial Index, not under `src/`) returns the indices of the `k`
particles nearest to the query point, in ascending minimum-image
distance order, ties broken deterministically (here: by particle
index, via a stable sort). -/
def keyLe (a b : ℕ × ℚ) : Prop := a.2 ≤ b.2

instance : DecidableRel keyLe := fun a b => inferInstanceAs (Decidable (a.2 ≤ b.2))

instance : IsTotal (ℕ × ℚ) keyLe := ⟨fun a b => le_total a.2 b.2⟩

instance : IsTrans (ℕ × ℚ) keyLe := ⟨fun _ _ _ h h' => le_trans h h'⟩

/-- Modelled from the spec: the `k`-nearest-neighbour query of the
Periodic Spatial Index over all particle positions, under the output
box and periodicity. -/
def queryKdtree (parts : List OutParticle) (L : Vec3) (per : Bool × Bool × Bool)
    (q : Vec3) (k : ℕ) : List ℕ :=
  ((((List.range parts.length).map fun i =>
      (i, minImageSq L per q (parts.getD i default).pos)).insertionSort keyLe).map
    Prod.fst).take k

/-- Lines 154-158 of the source: scan the retrieved neighbours in order
and return the first whose `index` equals the sought index; raise
`MBuildError` if none matches. -/
def firstMatchIdx (parts : List OutParticle) (mi : Option ℕ) : List ℕ → Except Unit ℕ
  | [] => .error ()
  | i :: rest =>
    if (parts.getD i default).tmplIdx = mi then .ok i else firstMatchIdx parts mi rest

/-- Method `TiledCompound._find_particle_image` (lines 147-158): query the
kdtree for the `k` nearest neighbours of `query`'s position
(`k = kwargs.get("k", 10)`), and return the first with `match`'s
index, or fail. -/
def findParticleImage (parts : List OutParticle) (L : Vec3) (per : Bool × Bool × Bool)
    (query mtch : OutParticle) (kw : Option ℕ) : Except Unit ℕ :=
  firstMatchIdx parts mtch.tmplIdx (queryKdtree parts L per query.pos (kw.getD 10))

/-- The two conditions of lines 100-110 on a bond of the replicated
structure: its endpoints' indices form a pair of the periodic bond
set, and its minimum-image distance under the output box exceeds
`dist_thresh`. -/
def bondCandidateParts (parts : List OutParticle) (L : Vec3) (per : Bool × Bool × Bool)
    (pb : List (ℕ × ℕ)) (thresh : Option ℚ) (g1 g2 : ℕ) : Bool :=
  pairInPB pb (parts.getD g1 default).tmplIdx (parts.getD g2 default).tmplIdx &&
    exceedsSq (minImageSq L per (parts.getD g1 default).pos (parts.getD g2 default).pos) thresh

/-- Lines 99-122 of the source: the scan over all bonds accumulating
`bonds_to_remove` and `bonds_to_add` (Python sets modelled as
duplicate-free lists in insertion order), aborting with the
`MBuildError` of `_find_particle_image` when an image lookup fails. -/
def repairScan (parts : List OutParticle) (L : Vec3) (per : Bool × Bool × Bool)
    (pb : List (ℕ × ℕ)) (thresh : Option ℚ) (kw : Option ℕ) :
    List (ℕ × ℕ) → List (ℕ × ℕ) → List (ℕ × ℕ) →
      Except Unit (List (ℕ × ℕ) × List (ℕ × ℕ))
  | [], rem, add => .ok (rem, add)
  | (g1, g2) :: rest, rem, add =>
    if bondCandidateParts parts L per pb thresh g1 g2 then
      match findParticleImage parts L per (parts.getD g1 default) (parts.getD g2 default) kw,
          findParticleImage parts L per (parts.getD g2 default) (parts.getD g1 default) kw with
      | .ok i2, .ok i1 =>
        let rem' := setInsert (g1, g2) rem
        let add' := if add.contains (i2, g1) then add else setInsert (g1, i2) add
        let add'' := if add'.contains (i1, g2) then add' else setInsert (g2, i1) add'
        repairScan parts L per pb thresh kw rest rem' add''
      | .error e, _ => .error e
      | _, .error e => .error e
    else repairScan parts L per pb thresh kw rest rem add

/-- Lines 124-125: remove every queued bond (undirected edge removal on
the bond graph). -/
def removeBonds (bonds rem : List (ℕ × ℕ)) : List (ℕ × ℕ) :=
  bonds.filter fun b => !(rem.contains b || rem.contains b.swap)

/-- Lines 127-128: add every queued bond (adding an edge already in the
undirected bond graph is a no-op). -/
def addAllBonds (bonds add : List (ℕ × ℕ)) : List (ℕ × ℕ) :=
  add.foldl (fun bs e => if bs.contains e || bs.contains e.swap then bs else bs ++ [e]) bonds

/-- Modelled from the spec: `Compound.get_boundingbox` (not under
`src/`) — "the tight bounding box of all particles": per-axis extents,
right angles. -/
def getBoundingbox (tile : Tile) : Box :=
  match tile.particles with
  | [] => { lengths := ⟨0, 0, 0⟩, angles := ⟨90, 90, 90⟩ }
  | p :: ps =>
    { lengths :=
        ⟨qsub (ps.foldl (fun m q => max m q.x) p.x) (ps.foldl (fun m q => min m q.x) p.x),
         qsub (ps.foldl (fun m q => max m q.y) p.y) (ps.foldl (fun m q => min m q.y) p.y),
         qsub (ps.foldl (fun m q => max m q.z) p.z) (ps.foldl (fun m q => min m q.z) p.z)⟩,
      angles := ⟨90, 90, 90⟩ }

/-- Lines 37-38 of the source: use the tile's box, computing the tight
bounding box first when it is absent. -/
def resolveBox (tile : Tile) : Box := tile.box.getD (getBoundingbox tile)

/-- Line 34: `np.all(n_tiles > 0)`. -/
def allPos (n : ℕ × ℕ × ℕ) : Bool := decide (0 < n.1) && decide (0 < n.2.1) && decide (0 < n.2.2)

/-- Line 40: `np.all(np.logical_or((n_tiles == 1), periodicity))`. -/
def periOkB (n : ℕ × ℕ × ℕ) (per : Bool × Bool × Bool) : Bool :=
  (n.1 == 1 || per.1) && (n.2.1 == 1 || per.2.1) && (n.2.2 == 1 || per.2.2)

/-- Line 53: `all(n_tiles == 1)`. -/
def allOne (n : ℕ × ℕ × ℕ) : Bool := n.1 == 1 && n.2.1 == 1 && n.2.2 == 1

/-- Line 138: `f"{self.name}_{i}-{j}-{k}"`. -/
def tileLabel (name : String) (c : ℕ × ℕ × ℕ) : String :=
  name ++ "_" ++ toString c.1 ++ "-" ++ toString c.2.1 ++ "-" ++ toString c.2.2

/-- Line 46: `tile.name + "-".join(str(d) for d in n_tiles)`. -/
def defaultName (tile : Tile) (n : ℕ × ℕ × ℕ) : String :=
  tile.name ++ String.intercalate ("-") [toString n.1, toString n.2.1, toString n.2.2]

/-- Line 49-51: output box, the template's box lengths multiplied
componentwise by the tile counts, same angles. -/
def tcOutBox (tile : Tile) (n : ℕ × ℕ × ℕ) : Box :=
  { lengths :=
      ⟨qmul (resolveBox tile).lengths.x (qofNat n.1),
       qmul (resolveBox tile).lengths.y (qofNat n.2.1),
       qmul (resolveBox tile).lengths.z (qofNat n.2.2)⟩,
    angles := (resolveBox tile).angles }

/-- Lines 37-38: the template with its box resolved. -/
def tcTileB (tile : Tile) : Tile := { tile with box := some (resolveBox tile) }

/-- Lines 63-64: the template after index assignment (on top of box
resolution). -/
def tcTileIdx (tile : Tile) : Tile :=
  { tcTileB tile with indices := (List.range tile.particles.length).map some }

/-- The particles of the replicated structure (index assignment plus
replication, lines 63-73). -/
def tcParts (tile : Tile) (n : ℕ × ℕ × ℕ) : List OutParticle :=
  replicatedParticles tile n (resolveBox tile).lengths

/-- The `dist_thresh` of this tiling run (lines 77-84). -/
def tcThresh (tile : Tile) : Option ℚ :=
  distThreshCode tile.periodicity (resolveBox tile).lengths

/-- The `periodic_bonds` of this tiling run (lines 86-90). -/
def tcPB (tile : Tile) : List (ℕ × ℕ) := periodicBondsOf tile (tcThresh tile)

/-- The child-tile records of the replicated structure. -/
def tcInsts (tile : Tile) (n : ℕ × ℕ × ℕ) : List TileInstance :=
  (gridCoords n).map fun c =>
    { ijk := c, isClone := true, label := tileLabel (defaultName tile n) c }

/-- State after the fast path (lines 53-56): the template itself (not a
clone) added untranslated, bonds from the template, no index
assignment, no kdtree. -/
def tcFastState (tile : Tile) (n : ℕ × ℕ × ℕ) : TiledState :=
  { name := defaultName tile n, periodicity := tile.periodicity, box := tcOutBox tile n,
    tiles := [{ ijk := (0, 0, 0), isClone := false,
                label := tileLabel (defaultName tile n) (0, 0, 0) }],
    particles :=
      (List.range tile.particles.length).map fun t =>
        { pos := tile.particles.getD t default, tmplIdx := tile.indices.getD t none },
    bonds := tile.bonds, hasKdtree := false }

/-- State of the object at the moment `_find_particle_image` raises:
replication done, kdtree built, bonds untouched, indices still set. -/
def tcStitchState (tile : Tile) (n : ℕ × ℕ × ℕ) : TiledState :=
  { name := defaultName tile n, periodicity := tile.periodicity, box := tcOutBox tile n,
    tiles := tcInsts tile n, particles := tcParts tile n,
    bonds := replicatedBonds tile n, hasKdtree := true }

/-- Final state of a successful slow-path run: removals applied, then
additions, indices cleared, kdtree deleted (lines 124-133). -/
def tcOkState (tile : Tile) (n : ℕ × ℕ × ℕ) (rem add : List (ℕ × ℕ)) : TiledState :=
  { name := defaultName tile n, periodicity := tile.periodicity, box := tcOutBox tile n,
    tiles := tcInsts tile n,
    particles := (tcParts tile n).map fun p => { p with tmplIdx := none },
    bonds := addAllBonds (removeBonds (replicatedBonds tile n) rem) add, hasKdtree := false }

/-- The scan over all bonds of this tiling run (lines 96-122). -/
def tcScan (tile : Tile) (n : ℕ × ℕ × ℕ) (kw : Option ℕ) :
    Except Unit (List (ℕ × ℕ) × List (ℕ × ℕ)) :=
  repairScan (tcParts tile n) (tcOutBox tile n).lengths tile.periodicity (tcPB tile)
    (tcThresh tile) kw (replicatedBonds tile n) [] []

/-- Constructor `TiledCompound.__init__(tile, n_tiles, **kwargs)` (the optional
`name` argument left at its default, `kw` the optional `k` of
`kwargs`): configuration checks, box resolution, replication, periodic
bond detection, bond stitching, and cleanup, in source order. -/
def tiledCompound (tile : Tile) (n : ℕ × ℕ × ℕ) (kw : Option ℕ) : TCResult :=
  if allPos n = false then .configError tile
  else if periOkB n tile.periodicity = false then .configError (tcTileB tile)
  else if allOne n then .ok (tcFastState tile n) (tcTileB tile)
  else
    match tcScan tile n kw with
    | .error _ => .stitchError (tcStitchState tile n) (tcTileIdx tile)
    | .ok (rem, add) => .ok (tcOkState tile n rem add) (tcTileIdx tile)

/-- Example template: three particles on the x axis, a bond cut by the
periodic x boundary (raw length 3 > 2 = dist_thresh) and a short bond;
periodic in x only, box 4 x 10 x 10. -/
def exTileGood : Tile :=
  { particles := [⟨0, 0, 0⟩, ⟨3, 0, 0⟩, ⟨1, 0, 0⟩],
    indices := [],
    bonds := [(0, 1), (0, 2)],
    periodicity := (true, false, false),
    box := some { lengths := ⟨4, 10, 10⟩, angles := ⟨90, 90, 90⟩ },
    name := "T" }

def stGood : TiledState :=
  match tiledCompound exTileGood (2, 1, 1) none with
  | .ok s _ => s
  | _ => default

def tGood : Tile :=
  match tiledCompound exTileGood (2, 1, 1) none with
  | .ok _ t => t
  | _ => default

example : tiledCompound exTileGood (2, 1, 1) none = .ok stGood tGood := by rfl

example : stGood.bonds = [(0, 2), (3, 5), (0, 4), (1, 3)] := by rfl

example : stGood.particles.length = 6 := by rfl

/-- Example template whose single bond is long along the *non-periodic*
y axis (raw length 3 > 2 = dist_thresh): it enters the periodic bond
set, yet no periodic image of either endpoint is close. -/
def exTileBad : Tile :=
  { particles := [⟨0, 0, 0⟩, ⟨0, 3, 0⟩],
    indices := [],
    bonds := [(0, 1)],
    periodicity := (true, false, false),
    box := some { lengths := ⟨4, 10, 10⟩, angles := ⟨90, 90, 90⟩ },
    name := "B" }

def stBad : TiledState :=
  match tiledCompound exTileBad (2, 1, 1) none with
  | .ok s _ => s
  | _ => default

example : tiledCompound exTileBad (2, 1, 1) none =
    .ok stBad ((tiledCompound exTileBad (2, 1, 1) none).tileAfter) := by rfl

example : stBad.bonds = [(0, 1), (2, 3)] := by rfl

example : exceedsSq (minImageSq stBad.box.lengths stBad.periodicity
    (stBad.particles.getD 0 default).pos (stBad.particles.getD 1 default).pos)
    (distThreshCode exTileBad.periodicity (resolveBox exTileBad).lengths) = true := by rfl

def stFail : TiledState :=
  match tiledCompound exTileGood (2, 1, 1) (some 1) with
  | .stitchError s _ => s
  | _ => default

def tFail : Tile :=
  match tiledCompound exTileGood (2, 1, 1) (some 1) with
  | .stitchError _ t => t
  | _ => default

example : tiledCompound exTileGood (2, 1, 1) (some 1) = .stitchError stFail tFail := by rfl

example : stFail.hasKdtree = true := by rfl

/-- Example template with no box and no periodicity. -/
def exTileNoBox : Tile :=
  { particles := [⟨0, 0, 0⟩, ⟨1, 2, 3⟩],
    indices := [],
    bonds := [],
    periodicity := (false, false, false),
    box := none,
    name := "N" }

example : (tiledCompound exTileNoBox (1, 1, 1) none).tileAfter.box =
    some { lengths := ⟨1, 2, 3⟩, angles := ⟨90, 90, 90⟩ } := by rfl

example : tiledCompound exTileNoBox (2, 1, 1) none =
    .configError { exTileNoBox with
      box := some { lengths := ⟨1, 2, 3⟩, angles := ⟨90, 90, 90⟩ } } := by rfl

theorem flatMap_length_uniform {α γ : Type} (P : ℕ) (f : γ → List α) :
    ∀ cs : List γ, (∀ c ∈ cs, (f c).length = P) → (cs.flatMap f).length = cs.length * P
  | [], _ => by simp
  | c :: cs, h => by
    simp only [List.flatMap_cons, List.length_append, List.length_cons]
    rw [flatMap_length_uniform P f cs fun c hc => h c (List.mem_cons_of_mem _ hc),
      h c (List.mem_cons_self _ _)]
    ring

theorem flatMap_getD_uniform {α γ : Type} (P : ℕ) (d : α) (dc : γ) (f : γ → List α) :
    ∀ cs : List γ, (∀ c ∈ cs, (f c).length = P) → ∀ r t : ℕ, r < cs.length → t < P →
      (cs.flatMap f).getD (r * P + t) d = (f (cs.getD r dc)).getD t d
  | [], _, r, _, hr, _ => absurd hr (by simp)
  | c :: cs, h, 0, t, _, ht => by
    simp only [List.flatMap_cons, Nat.zero_mul, Nat.zero_add, List.getD_cons_zero]
    exact List.getD_append _ _ _ _ (by rw [h c (List.mem_cons_self _ _)]; exact ht)
  | c :: cs, h, r + 1, t, hr, ht => by
    simp only [List.flatMap_cons, List.getD_cons_succ]
    have hlen : (f c).length = P := h c (List.mem_cons_self _ _)
    have hidx : (r + 1) * P + t = (f c).length + (r * P + t) := by rw [hlen]; ring
    rw [hidx, List.getD_append_right _ _ _ _ (Nat.le_add_right _ _), Nat.add_sub_cancel_left]
    exact flatMap_getD_uniform P d dc f cs (fun c hc => h c (List.mem_cons_of_mem _ hc)) r t
      (Nat.lt_of_succ_lt_succ hr) ht

theorem getD_map_range {α : Type} (f : ℕ → α) {n i : ℕ} (h : i < n) (d : α) :
    ((List.range n).map f).getD i d = f i := by
  rw [List.getD_eq_getElem?_getD, List.getElem?_map, List.getElem?_range h]
  rfl

theorem getD_range {n i : ℕ} (h : i < n) (d : ℕ) : (List.range n).getD i d = i := by
  rw [List.getD_eq_getElem?_getD, List.getElem?_range h, Option.getD_some]

theorem gridCoords_inner_length (n : ℕ × ℕ × ℕ) (i : ℕ) :
    ((List.range n.2.1).flatMap fun j => (List.range n.2.2).map fun k => (i, j, k)).length =
      n.2.1 * n.2.2 :=
  (flatMap_length_uniform n.2.2 _ _ fun _ _ => by simp).trans (by simp)

theorem gridCoords_length (n : ℕ × ℕ × ℕ) :
    (gridCoords n).length = n.1 * (n.2.1 * n.2.2) := by
  unfold gridCoords
  rw [flatMap_length_uniform (n.2.1 * n.2.2) _ _ fun i _ => gridCoords_inner_length n i]
  simp

theorem mem_gridCoords {n c : ℕ × ℕ × ℕ} :
    c ∈ gridCoords n ↔ c.1 < n.1 ∧ c.2.1 < n.2.1 ∧ c.2.2 < n.2.2 := by
  obtain ⟨i, j, k⟩ := c
  simp only [gridCoords, List.mem_flatMap, List.mem_map, List.mem_range]
  constructor
  · rintro ⟨a, ha, b, hb, e, he, heq⟩
    obtain ⟨rfl, rfl, rfl⟩ := Prod.mk.injEq .. ▸ (by injection heq with h1 h2; injection h2 with h2 h3; exact ⟨h1, h2, h3⟩ : a = i ∧ b = j ∧ e = k)
    exact ⟨ha, hb, he⟩
  · rintro ⟨hi, hj, hk⟩
    exact ⟨i, hi, j, hj, k, hk, rfl⟩

theorem gridCoords_getD {n : ℕ × ℕ × ℕ} {i j k : ℕ}
    (hi : i < n.1) (hj : j < n.2.1) (hk : k < n.2.2) (d : ℕ × ℕ × ℕ) :
    (gridCoords n).getD ((i * n.2.1 + j) * n.2.2 + k) d = (i, j, k) := by
  have hidx : (i * n.2.1 + j) * n.2.2 + k = i * (n.2.1 * n.2.2) + (j * n.2.2 + k) := by ring
  have hexp : (j + 1) * n.2.2 = j * n.2.2 + n.2.2 := by ring
  have hin : j * n.2.2 + k < n.2.1 * n.2.2 :=
    lt_of_lt_of_le (by omega : j * n.2.2 + k < (j + 1) * n.2.2)
      (Nat.mul_le_mul_right _ (Nat.succ_le_of_lt hj))
  unfold gridCoords
  rw [hidx, flatMap_getD_uniform (n.2.1 * n.2.2) d 0 _ _
      (fun i _ => gridCoords_inner_length n i) i (j * n.2.2 + k) (by simpa using hi) hin,
    getD_range hi,
    flatMap_getD_uniform n.2.2 d 0 _ _ (fun _ _ => by simp) j k (by simpa using hj) hk,
    getD_range hj, getD_map_range _ hk]

theorem replicatedParticles_length (tile : Tile) (n : ℕ × ℕ × ℕ) (L : Vec3) :
    (replicatedParticles tile n L).length = (gridCoords n).length * tile.particles.length := by
  unfold replicatedParticles
  rw [flatMap_length_uniform tile.particles.length _ _ fun _ _ => by
    simp [replicaParticles]]

theorem replicatedParticles_getD (tile : Tile) (L : Vec3) {n : ℕ × ℕ × ℕ} {r t : ℕ}
    (hr : r < (gridCoords n).length) (ht : t < tile.particles.length) :
    (replicatedParticles tile n L).getD (r * tile.particles.length + t) default =
      { pos := vadd (tile.particles.getD t default)
          (offsetOf ((gridCoords n).getD r (0, 0, 0)) L),
        tmplIdx := some t } := by
  unfold replicatedParticles
  rw [flatMap_getD_uniform tile.particles.length default (0, 0, 0) _ _
      (fun _ _ => by simp [replicaParticles]) r t hr ht]
  exact getD_map_range _ ht _

theorem replicatedParticles_tmplIdx (tile : Tile) (n : ℕ × ℕ × ℕ) (L : Vec3) {g : ℕ}
    (hg : g < (replicatedParticles tile n L).length) :
    ((replicatedParticles tile n L).getD g default).tmplIdx =
      some (g % tile.particles.length) := by
  have hlen := replicatedParticles_length tile n L
  have hP : 0 < tile.particles.length := by
    rcases Nat.eq_zero_or_pos tile.particles.length with h0 | h
    · rw [hlen, h0, Nat.mul_zero] at hg; omega
    · exact h
  have heq : g / tile.particles.length * tile.particles.length + g % tile.particles.length
      = g := by
    rw [Nat.mul_comm (g / tile.particles.length) tile.particles.length]
    exact Nat.div_add_mod g tile.particles.length
  have hr : g / tile.particles.length < (gridCoords n).length := by
    rw [hlen] at hg
    exact (Nat.div_lt_iff_lt_mul hP).mpr hg
  have hmod : g % tile.particles.length < tile.particles.length := Nat.mod_lt _ hP
  calc ((replicatedParticles tile n L).getD g default).tmplIdx
      = ((replicatedParticles tile n L).getD
          (g / tile.particles.length * tile.particles.length + g % tile.particles.length)
          default).tmplIdx := by rw [heq]
    _ = some (g % tile.particles.length) := by
        rw [replicatedParticles_getD tile L hr hmod]

theorem mem_inner_snd {i j n3 : ℕ} {x : ℕ × ℕ × ℕ}
    (hx : x ∈ (List.range n3).map fun k => (i, j, k)) : x.2.1 = j := by
  obtain ⟨k, _, rfl⟩ := List.mem_map.mp hx
  rfl

theorem mem_block_fst {i n2 n3 : ℕ} {x : ℕ × ℕ × ℕ}
    (hx : x ∈ (List.range n2).flatMap fun j => (List.range n3).map fun k => (i, j, k)) :
    x.1 = i := by
  simp only [List.mem_flatMap, List.mem_map] at hx
  obtain ⟨j, _, k, _, rfl⟩ := hx
  rfl

theorem gridCoords_nodup (n : ℕ × ℕ × ℕ) : (gridCoords n).Nodup := by
  unfold gridCoords
  rw [List.nodup_flatMap]
  constructor
  · intro i _
    rw [List.nodup_flatMap]
    constructor
    · intro j _
      exact (List.nodup_range _).map fun a b h => congrArg (fun c => c.2.2) h
    · exact (List.pairwise_lt_range _).imp fun {a b} hab x hxa hxb => by
        rw [← mem_inner_snd hxa, mem_inner_snd hxb] at hab
        exact lt_irrefl _ hab
  · exact (List.pairwise_lt_range _).imp fun {a b} hab x hxa hxb => by
      rw [← mem_block_fst hxa, mem_block_fst hxb] at hab
      exact lt_irrefl _ hab

theorem axisSep_comm (L : ℚ) (p : Bool) (x y : ℚ) : axisSep L p x y = axisSep L p y x := by
  unfold axisSep
  rw [show qabs (qsub x y) = qabs (qsub y x) by
    rw [qabs_eq, qabs_eq, qsub_eq, qsub_eq, abs_sub_comm]]

theorem minImageSq_comm (L : Vec3) (per : Bool × Bool × Bool) (a b : Vec3) :
    minImageSq L per a b = minImageSq L per b a := by
  unfold minImageSq
  rw [axisSep_comm L.x, axisSep_comm L.y, axisSep_comm L.z]

theorem pairInPB_comm (pb : List (ℕ × ℕ)) (i1 i2 : Option ℕ) :
    pairInPB pb i1 i2 = pairInPB pb i2 i1 := by
  unfold pairInPB
  cases i1 <;> cases i2 <;> simp [Bool.or_comm]

theorem bondCandidateParts_comm (parts : List OutParticle) (L : Vec3)
    (per : Bool × Bool × Bool) (pb : List (ℕ × ℕ)) (thresh : Option ℚ) (g1 g2 : ℕ) :
    bondCandidateParts parts L per pb thresh g1 g2 =
      bondCandidateParts parts L per pb thresh g2 g1 := by
  unfold bondCandidateParts
  rw [pairInPB_comm, minImageSq_comm]

theorem mem_sorted_pairs {parts : List OutParticle} {L : Vec3} {per : Bool × Bool × Bool}
    {q : Vec3} {p : ℕ × ℚ}
    (hp : p ∈ ((List.range parts.length).map fun i =>
      (i, minImageSq L per q (parts.getD i default).pos)).insertionSort keyLe) :
    p.2 = minImageSq L per q (parts.getD p.1 default).pos ∧ p.1 < parts.length := by
  rw [(List.perm_insertionSort keyLe _).mem_iff] at hp
  obtain ⟨i, hi, rfl⟩ := List.mem_map.mp hp
  exact ⟨rfl, List.mem_range.mp hi⟩

theorem queryKdtree_mem_lt {parts : List OutParticle} {L : Vec3} {per : Bool × Bool × Bool}
    {q : Vec3} {k i : ℕ} (h : i ∈ queryKdtree parts L per q k) : i < parts.length := by
  unfold queryKdtree at h
  obtain ⟨p, hp, rfl⟩ := List.mem_map.mp (List.mem_of_mem_take h)
  exact (mem_sorted_pairs hp).2

theorem queryKdtree_pairwise (parts : List OutParticle) (L : Vec3) (per : Bool × Bool × Bool)
    (q : Vec3) (k : ℕ) :
    (queryKdtree parts L per q k).Pairwise fun a b =>
      minImageSq L per q (parts.getD a default).pos ≤
        minImageSq L per q (parts.getD b default).pos := by
  unfold queryKdtree
  apply List.Pairwise.sublist (List.take_sublist _ _)
  rw [List.pairwise_map]
  exact (List.sorted_insertionSort keyLe _).imp_of_mem fun {a b} ha hb hab => by
    rw [← (mem_sorted_pairs ha).1, ← (mem_sorted_pairs hb).1]
    exact hab

theorem queryKdtree_length_le (parts : List OutParticle) (L : Vec3)
    (per : Bool × Bool × Bool) (q : Vec3) (k : ℕ) :
    (queryKdtree parts L per q k).length ≤ k := by
  unfold queryKdtree
  exact (List.length_take _ _).le.trans (min_le_left _ _)

theorem firstMatchIdx_ok {parts : List OutParticle} {mi : Option ℕ} :
    ∀ {l : List ℕ} {i : ℕ}, firstMatchIdx parts mi l = .ok i →
      i ∈ l ∧ (parts.getD i default).tmplIdx = mi := by
  intro l
  induction l with
  | nil => intro i h; simp [firstMatchIdx] at h
  | cons j rest ih =>
    intro i h
    by_cases hj : (parts.getD j default).tmplIdx = mi
    · rw [firstMatchIdx, if_pos hj] at h
      cases h
      exact ⟨List.mem_cons_self _ _, hj⟩
    · rw [firstMatchIdx, if_neg hj] at h
      obtain ⟨hmem, hidx⟩ := ih h
      exact ⟨List.mem_cons_of_mem _ hmem, hidx⟩

theorem firstMatchIdx_error_iff {parts : List OutParticle} {mi : Option ℕ} :
    ∀ {l : List ℕ}, firstMatchIdx parts mi l = .error () ↔
      ∀ j ∈ l, (parts.getD j default).tmplIdx ≠ mi := by
  intro l
  induction l with
  | nil => simp [firstMatchIdx]
  | cons j rest ih =>
    by_cases hj : (parts.getD j default).tmplIdx = mi
    · rw [firstMatchIdx, if_pos hj]
      simp only [List.forall_mem_cons]
      constructor
      · intro h; cases h
      · intro h; exact absurd hj h.1
    · rw [firstMatchIdx, if_neg hj]
      simp only [List.forall_mem_cons]
      rw [ih]
      exact ⟨fun h => ⟨hj, h⟩, fun h => h.2⟩

theorem firstMatchIdx_min {parts : List OutParticle} {mi : Option ℕ} (keyf : ℕ → ℚ) :
    ∀ {l : List ℕ} {i : ℕ}, l.Pairwise (fun a b => keyf a ≤ keyf b) →
      firstMatchIdx parts mi l = .ok i →
      ∀ j ∈ l, (parts.getD j default).tmplIdx = mi → keyf i ≤ keyf j := by
  intro l
  induction l with
  | nil => intro i _ h; simp [firstMatchIdx] at h
  | cons a rest ih =>
    intro i hp h j hj hjm
    by_cases ha : (parts.getD a default).tmplIdx = mi
    · rw [firstMatchIdx, if_pos ha] at h
      cases h
      rcases List.mem_cons.mp hj with rfl | hj'
      · exact le_refl _
      · exact (List.pairwise_cons.mp hp).1 j hj'
    · rw [firstMatchIdx, if_neg ha] at h
      rcases List.mem_cons.mp hj with rfl | hj'
      · exact absurd hjm ha
      · exact ih (List.pairwise_cons.mp hp).2 h j hj' hjm

theorem containsPair_iff {l : List (ℕ × ℕ)} {e : ℕ × ℕ} : l.contains e = true ↔ e ∈ l :=
  List.elem_iff

/-- Undirected presence of a bond in a bond list. -/
def bondPresent (bs : List (ℕ × ℕ)) (a b : ℕ) : Prop := (a, b) ∈ bs ∨ (b, a) ∈ bs

theorem setInsert_mem_self (e : ℕ × ℕ) (s : List (ℕ × ℕ)) : e ∈ setInsert e s := by
  unfold setInsert
  split
  · next h => exact containsPair_iff.mp h
  · exact List.mem_append_right _ (List.mem_singleton.mpr rfl)

theorem setInsert_subset {e : ℕ × ℕ} {s : List (ℕ × ℕ)} (x : ℕ × ℕ) (hx : x ∈ s) :
    x ∈ setInsert e s := by
  unfold setInsert
  split
  · exact hx
  · exact List.mem_append_left _ hx

theorem mem_setInsert {e x : ℕ × ℕ} {s : List (ℕ × ℕ)} (hx : x ∈ setInsert e s) :
    x ∈ s ∨ x = e := by
  unfold setInsert at hx
  split at hx
  · exact Or.inl hx
  · rcases List.mem_append.mp hx with h | h
    · exact Or.inl h
    · exact Or.inr (List.mem_singleton.mp h)

theorem mem_addAllBonds_of_mem {b : ℕ × ℕ} :
    ∀ (add : List (ℕ × ℕ)) {bonds : List (ℕ × ℕ)}, b ∈ bonds → b ∈ addAllBonds bonds add
  | [], _, hb => hb
  | e :: es, bonds, hb => by
    show b ∈ addAllBonds (if bonds.contains e || bonds.contains e.swap then bonds
      else bonds ++ [e]) es
    apply mem_addAllBonds_of_mem es
    split
    · exact hb
    · exact List.mem_append_left _ hb

theorem bondPresent_mono {a b : ℕ} {bonds : List (ℕ × ℕ)} (add : List (ℕ × ℕ))
    (h : bondPresent bonds a b) : bondPresent (addAllBonds bonds add) a b := by
  rcases h with h | h
  · exact Or.inl (mem_addAllBonds_of_mem add h)
  · exact Or.inr (mem_addAllBonds_of_mem add h)

theorem addAllBonds_present {e : ℕ × ℕ} :
    ∀ (add : List (ℕ × ℕ)), e ∈ add → ∀ bonds : List (ℕ × ℕ),
      bondPresent (addAllBonds bonds add) e.1 e.2
  | [], he, _ => absurd he (List.not_mem_nil e)
  | a :: as, he, bonds => by
    show bondPresent (addAllBonds (if bonds.contains a || bonds.contains a.swap then bonds
      else bonds ++ [a]) as) e.1 e.2
    rcases List.mem_cons.mp he with rfl | h'
    · split
      · next hc =>
        apply bondPresent_mono
        rcases Bool.or_eq_true_iff.mp hc with hc1 | hc2
        · exact Or.inl (containsPair_iff.mp hc1)
        · exact Or.inr (containsPair_iff.mp hc2)
      · apply bondPresent_mono
        exact Or.inl (List.mem_append_right bonds (List.mem_singleton.mpr rfl))
    · exact addAllBonds_present as h' _

theorem mem_removeBonds {bonds rem : List (ℕ × ℕ)} {b : ℕ × ℕ} :
    b ∈ removeBonds bonds rem ↔ b ∈ bonds ∧ ¬(b ∈ rem ∨ b.swap ∈ rem) := by
  unfold removeBonds
  rw [List.mem_filter]
  constructor
  · rintro ⟨h1, h2⟩
    rw [Bool.not_eq_true', Bool.or_eq_false_iff] at h2
    refine ⟨h1, fun hc => ?_⟩
    rcases hc with hc | hc
    · have hcc := containsPair_iff.mpr hc
      rw [h2.1] at hcc
      exact Bool.noConfusion hcc
    · have hcc := containsPair_iff.mpr hc
      rw [h2.2] at hcc
      exact Bool.noConfusion hcc
  · rintro ⟨h1, h2⟩
    refine ⟨h1, ?_⟩
    rw [Bool.not_eq_true', Bool.or_eq_false_iff]
    constructor
    · exact Bool.eq_false_iff.mpr fun hc => h2 (Or.inl (containsPair_iff.mp hc))
    · exact Bool.eq_false_iff.mpr fun hc => h2 (Or.inr (containsPair_iff.mp hc))

theorem mem_addStep {e : ℕ × ℕ} {add : List (ℕ × ℕ)} {c : Bool} (y : ℕ × ℕ) (he : e ∈ add) :
    e ∈ (if c = true then add else setInsert y add) := by
  split
  · exact he
  · exact setInsert_subset e he

theorem repairScan_add_mono {parts : List OutParticle} {L : Vec3} {per : Bool × Bool × Bool}
    {pb : List (ℕ × ℕ)} {thresh : Option ℚ} {kw : Option ℕ} :
    ∀ {bonds : List (ℕ × ℕ)} {rem add remF addF : List (ℕ × ℕ)},
      repairScan parts L per pb thresh kw bonds rem add = .ok (remF, addF) →
      ∀ e ∈ add, e ∈ addF := by
  intro bonds
  induction bonds with
  | nil =>
    intro rem add remF addF h e he
    simp only [repairScan] at h
    cases h
    exact he
  | cons b rest ih =>
    obtain ⟨g1, g2⟩ := b
    intro rem add remF addF h e he
    simp only [repairScan] at h
    split at h
    · split at h
      · exact ih h e (mem_addStep _ (mem_addStep _ he))
      · cases h
      · cases h
    · exact ih h e he

theorem repairScan_rem_char {parts : List OutParticle} {L : Vec3} {per : Bool × Bool × Bool}
    {pb : List (ℕ × ℕ)} {thresh : Option ℚ} {kw : Option ℕ} :
    ∀ {bonds : List (ℕ × ℕ)} {rem add remF addF : List (ℕ × ℕ)},
      repairScan parts L per pb thresh kw bonds rem add = .ok (remF, addF) →
      ∀ a b : ℕ, (a, b) ∈ remF → (a, b) ∈ rem ∨
        ((a, b) ∈ bonds ∧ bondCandidateParts parts L per pb thresh a b = true) := by
  intro bonds
  induction bonds with
  | nil =>
    intro rem add remF addF h a b he
    simp only [repairScan] at h
    cases h
    exact Or.inl he
  | cons hd rest ih =>
    obtain ⟨g1, g2⟩ := hd
    intro rem add remF addF h a b he
    simp only [repairScan] at h
    split at h
    · next hcand =>
      split at h
      · rcases ih h a b he with hin | ⟨hmem, hc⟩
        · rcases mem_setInsert hin with hin' | heq
          · exact Or.inl hin'
          · injection heq with e1 e2
            subst e1; subst e2
            exact Or.inr ⟨List.mem_cons_self _ _, hcand⟩
        · exact Or.inr ⟨List.mem_cons_of_mem _ hmem, hc⟩
      · cases h
      · cases h
    · rcases ih h a b he with hin | ⟨hmem, hc⟩
      · exact Or.inl hin
      · exact Or.inr ⟨List.mem_cons_of_mem _ hmem, hc⟩

theorem repairScan_rebonds {parts : List OutParticle} {L : Vec3} {per : Bool × Bool × Bool}
    {pb : List (ℕ × ℕ)} {thresh : Option ℚ} {kw : Option ℕ} :
    ∀ {bonds : List (ℕ × ℕ)} {rem add remF addF : List (ℕ × ℕ)},
      repairScan parts L per pb thresh kw bonds rem add = .ok (remF, addF) →
      ∀ g1 g2 : ℕ, (g1, g2) ∈ bonds →
        bondCandidateParts parts L per pb thresh g1 g2 = true →
        ∃ i2 i1 : ℕ,
          findParticleImage parts L per (parts.getD g1 default) (parts.getD g2 default) kw
            = .ok i2 ∧
          findParticleImage parts L per (parts.getD g2 default) (parts.getD g1 default) kw
            = .ok i1 ∧
          ((g1, i2) ∈ addF ∨ (i2, g1) ∈ addF) ∧ ((g2, i1) ∈ addF ∨ (i1, g2) ∈ addF) := by
  intro bonds
  induction bonds with
  | nil =>
    intro rem add remF addF _ g1 g2 hb _
    exact absurd hb (List.not_mem_nil _)
  | cons b rest ih =>
    obtain ⟨h1, h2⟩ := b
    intro rem add remF addF h g1 g2 hb hcand
    rcases List.mem_cons.mp hb with heq | hb'
    · injection heq with e1 e2
      subst e1; subst e2
      simp only [repairScan] at h
      rw [if_pos hcand] at h
      split at h
      · next i2 i1 hf2 hf1 =>
        refine ⟨i2, i1, hf2, hf1, ?_, ?_⟩
        · by_cases hc1 : add.contains (i2, g1) = true
          · rw [if_pos hc1] at h
            refine Or.inr (repairScan_add_mono h _ ?_)
            exact mem_addStep _ (containsPair_iff.mp hc1)
          · rw [if_neg hc1] at h
            refine Or.inl (repairScan_add_mono h _ ?_)
            exact mem_addStep _ (setInsert_mem_self _ _)
        · by_cases hc2 :
            (if add.contains (i2, g1) = true then add
              else setInsert (g1, i2) add).contains (i1, g2) = true
          · rw [if_pos hc2] at h
            exact Or.inr (repairScan_add_mono h _ (containsPair_iff.mp hc2))
          · rw [if_neg hc2] at h
            exact Or.inl (repairScan_add_mono h _ (setInsert_mem_self _ _))
      · cases h
      · cases h
    · simp only [repairScan] at h
      split at h
      · split at h
        · exact ih h g1 g2 hb' hcand
        · cases h
        · cases h
      · exact ih h g1 g2 hb' hcand

theorem tiledCompound_ok_slow_inv {tile : Tile} {n : ℕ × ℕ × ℕ} {kw : Option ℕ}
    {st : TiledState} {t' : Tile} (h : tiledCompound tile n kw = .ok st t')
    (hone : allOne n = false) :
    ∃ rem add : List (ℕ × ℕ),
      tcScan tile n kw = .ok (rem, add) ∧ st = tcOkState tile n rem add ∧
        t' = tcTileIdx tile := by
  unfold tiledCompound at h
  split at h
  · cases h
  · split at h
    · cases h
    · split at h
      · next hone' => rw [hone] at hone'; cases hone'
      · split at h
        · cases h
        · next rem add hscan =>
          injection h with h1 h2
          exact ⟨rem, add, hscan, h1.symm, h2.symm⟩

theorem tiledCompound_ok_fast_inv {tile : Tile} {n : ℕ × ℕ × ℕ} {kw : Option ℕ}
    {st : TiledState} {t' : Tile} (h : tiledCompound tile n kw = .ok st t')
    (hone : allOne n = true) :
    st = tcFastState tile n ∧ t' = tcTileB tile := by
  unfold tiledCompound at h
  split at h
  · cases h
  · split at h
    · cases h
    · injection h with h1 h2
      exact ⟨h1.symm, h2.symm⟩

theorem tiledCompound_stitch_inv {tile : Tile} {n : ℕ × ℕ × ℕ} {kw : Option ℕ}
    {st : TiledState} {t' : Tile} (h : tiledCompound tile n kw = .stitchError st t') :
    st = tcStitchState tile n ∧ t' = tcTileIdx tile := by
  unfold tiledCompound at h
  split at h
  · cases h
  · split at h
    · cases h
    · split at h
      · cases h
      · split at h
        · injection h with h1 h2
          exact ⟨h1.symm, h2.symm⟩
        · cases h

def tBad : Tile :=
  match tiledCompound exTileBad (2, 1, 1) none with
  | .ok _ t => t
  | _ => default

theorem count_eq_one_of_nodup_mem {α : Type} [BEq α] [LawfulBEq α] {l : List α} {a : α}
    (hn : l.Nodup) (ha : a ∈ l) : l.count a = 1 := by
  induction l with
  | nil => cases ha
  | cons b bs ih =>
    rw [List.count_cons]
    rcases List.mem_cons.mp ha with rfl | h'
    · rw [List.count_eq_zero.mpr (List.nodup_cons.mp hn).1]
      simp
    · rw [ih (List.nodup_cons.mp hn).2 h']
      have hne : b ≠ a := fun he => (List.nodup_cons.mp hn).1 (he ▸ h')
      simp [hne]

theorem getD_map_lt {α β : Type} (f : α → β) {l : List α} {i : ℕ} (h : i < l.length)
    (d : β) (d' : α) : (l.map f).getD i d = f (l.getD i d') := by
  rw [List.getD_eq_getElem?_getD, List.getElem?_map, List.getD_eq_getElem?_getD,
    List.getElem?_eq_getElem h]
  rfl

/-- C6: `dist_thresh` equals half the minimum of the template box
lengths taken over the periodic axes, and is infinite (`none`) when no
axis is periodic; the periodic bond set contains exactly the
template-index pairs of bonds of the original tile whose raw endpoint
distance exceeds `dist_thresh` (distances compared in squared form). -/
theorem C6_dist_thresh_periodic_set (per : Bool × Bool × Bool) (L : Vec3)
    (tile : Tile) (a b : ℕ) :
    distThreshCode per L = distThreshSpec per L ∧
    ((a, b) ∈ tcPB tile ↔
      (a, b) ∈ tile.bonds ∧
        exceedsSq
          (distSqRaw (tile.particles.getD a default) (tile.particles.getD b default))
          (distThreshSpec tile.periodicity (resolveBox tile).lengths) = true) := by
  have hth : ∀ (p : Bool × Bool × Bool) (v : Vec3), distThreshCode p v = distThreshSpec p v := by
    rintro ⟨p1, p2, p3⟩ v
    cases p1 <;> cases p2 <;> cases p3 <;> rfl
  refine ⟨hth per L, ?_⟩
  unfold tcPB periodicBondsOf tcThresh
  rw [List.mem_filter, hth]

/-- C4: `_find_particle_image` retrieves (at most) the `k` nearest
neighbours of the query position where `k = kwargs.get("k", 10)`,
returns a neighbour whose index equals the match's index, fails with
the stitching error precisely when no retrieved neighbour matches (so
the outcome is a function of those `k` neighbours alone — no internal
retry with a larger `k`), and an absent `k` behaves as `k = 10`. -/
theorem C4_find_image (parts : List OutParticle) (L : Vec3) (per : Bool × Bool × Bool)
    (query mtch : OutParticle) (kw : Option ℕ) :
    (queryKdtree parts L per query.pos (kw.getD 10)).length ≤ kw.getD 10 ∧
    (findParticleImage parts L per query mtch kw = .error () ↔
      ∀ j ∈ queryKdtree parts L per query.pos (kw.getD 10),
        (parts.getD j default).tmplIdx ≠ mtch.tmplIdx) ∧
    (∀ i : ℕ, findParticleImage parts L per query mtch kw = .ok i →
      i ∈ queryKdtree parts L per query.pos (kw.getD 10) ∧
        (parts.getD i default).tmplIdx = mtch.tmplIdx) ∧
    findParticleImage parts L per query mtch none =
      findParticleImage parts L per query mtch (some 10) :=
  ⟨queryKdtree_length_le _ _ _ _ _, firstMatchIdx_error_iff,
    fun _ h => firstMatchIdx_ok h, rfl⟩

theorem C4_find_image_witness :
    (4 : ℕ) ∈ queryKdtree (tcParts exTileGood (2, 1, 1))
        (tcOutBox exTileGood (2, 1, 1)).lengths exTileGood.periodicity
        (((tcParts exTileGood (2, 1, 1)).getD 0 default).pos) ((none : Option ℕ).getD 10) ∧
      ((tcParts exTileGood (2, 1, 1)).getD 4 default).tmplIdx =
        ((tcParts exTileGood (2, 1, 1)).getD 1 default).tmplIdx :=
  (C4_find_image (tcParts exTileGood (2, 1, 1)) (tcOutBox exTileGood (2, 1, 1)).lengths
    exTileGood.periodicity ((tcParts exTileGood (2, 1, 1)).getD 0 default)
    ((tcParts exTileGood (2, 1, 1)).getD 1 default) none).2.2.1 4 (by rfl)

/-- C10: among the retrieved neighbours (which arrive in ascending
minimum-image-distance order), find_image returns a matching neighbour
of minimal minimum-image distance to the query: any retrieved
neighbour with the sought template index is at least as far. -/
theorem C10_nearest_matching_image (parts : List OutParticle) (L : Vec3)
    (per : Bool × Bool × Bool) (query mtch : OutParticle) (kw : Option ℕ) (i : ℕ)
    (h : findParticleImage parts L per query mtch kw = .ok i) :
    (parts.getD i default).tmplIdx = mtch.tmplIdx ∧
    ∀ j ∈ queryKdtree parts L per query.pos (kw.getD 10),
      (parts.getD j default).tmplIdx = mtch.tmplIdx →
        minImageSq L per query.pos (parts.getD i default).pos ≤
          minImageSq L per query.pos (parts.getD j default).pos :=
  ⟨(firstMatchIdx_ok h).2,
    firstMatchIdx_min (fun a => minImageSq L per query.pos (parts.getD a default).pos)
      (queryKdtree_pairwise parts L per query.pos _) h⟩

theorem C10_nearest_matching_image_witness :
    ((tcParts exTileGood (2, 1, 1)).getD 3 default).tmplIdx =
      ((tcParts exTileGood (2, 1, 1)).getD 0 default).tmplIdx :=
  (C10_nearest_matching_image (tcParts exTileGood (2, 1, 1))
    (tcOutBox exTileGood (2, 1, 1)).lengths exTileGood.periodicity
    ((tcParts exTileGood (2, 1, 1)).getD 1 default)
    ((tcParts exTileGood (2, 1, 1)).getD 0 default) none 3 (by rfl)).1

/-- C2 (amended): the tiling call never mutates the template's
particle positions, bond list, or periodicity, and leaves an
already-present box unchanged.  (It does set an absent box and does
assign the transient particle indices on the replication path — see
the counterexample.) -/
theorem C2_template_preservation (tile : Tile) (n : ℕ × ℕ × ℕ) (kw : Option ℕ) :
    (tiledCompound tile n kw).tileAfter.particles = tile.particles ∧
    (tiledCompound tile n kw).tileAfter.bonds = tile.bonds ∧
    (tiledCompound tile n kw).tileAfter.periodicity = tile.periodicity ∧
    ∀ b : Box, tile.box = some b → (tiledCompound tile n kw).tileAfter.box = some b := by
  have hbx : ∀ b : Box, tile.box = some b → some (resolveBox tile) = some b := by
    intro b hb
    rw [resolveBox, hb]
    rfl
  unfold tiledCompound
  split
  · exact ⟨rfl, rfl, rfl, fun _ hb => hb⟩
  · split
    · exact ⟨rfl, rfl, rfl, hbx⟩
    · split
      · exact ⟨rfl, rfl, rfl, hbx⟩
      · split
        · exact ⟨rfl, rfl, rfl, hbx⟩
        · exact ⟨rfl, rfl, rfl, hbx⟩

theorem C2_template_preservation_witness :
    (tiledCompound exTileGood (2, 1, 1) none).tileAfter.box =
      some { lengths := ⟨4, 10, 10⟩, angles := ⟨90, 90, 90⟩ } :=
  (C2_template_preservation exTileGood (2, 1, 1) none).2.2.2
    { lengths := ⟨4, 10, 10⟩, angles := ⟨90, 90, 90⟩ } rfl

/-- C2 counterexample: the call does mutate the template.  With an
absent box, the box is assigned (lines 37-38); on the replication
path the template's particles get `index` attributes assigned (lines
63-64) that are never cleared on the template. -/
theorem C2_counterexample :
    exTileNoBox.box = none ∧
    (tiledCompound exTileNoBox (1, 1, 1) none).tileAfter.box =
      some { lengths := ⟨1, 2, 3⟩, angles := ⟨90, 90, 90⟩ } ∧
    exTileGood.indices = [] ∧
    (tiledCompound exTileGood (2, 1, 1) none).tileAfter.indices =
      [some 0, some 1, some 2] :=
  ⟨rfl, rfl, rfl, rfl⟩

/-- C5 (amended): a non-positive tile count is rejected before
anything is touched (the template is returned unchanged), and a count
greater than 1 along a non-periodic axis is rejected before any
output structure is built — though in the latter case the template's
box has already been resolved and assigned (lines 37-38 run before
the periodicity check); no output structure is produced in either
case. -/
theorem C5_config_error (tile : Tile) (n : ℕ × ℕ × ℕ) (kw : Option ℕ) :
    (allPos n = false → tiledCompound tile n kw = .configError tile) ∧
    (allPos n = true → periOkB n tile.periodicity = false →
      tiledCompound tile n kw = .configError (tcTileB tile)) := by
  constructor
  · intro h
    unfold tiledCompound
    rw [if_pos h]
  · intro hp hper
    unfold tiledCompound
    rw [if_neg (by rw [hp]; exact fun hc => Bool.noConfusion hc), if_pos hper]

def exTileNoPer : Tile :=
  { exTileNoBox with box := some { lengths := ⟨1, 2, 3⟩, angles := ⟨90, 90, 90⟩ } }

theorem C5_config_error_witness :
    tiledCompound exTileNoPer (2, 1, 1) none = .configError (tcTileB exTileNoPer) :=
  (C5_config_error exTileNoPer (2, 1, 1) none).2 (by rfl) (by rfl)

/-- C5 counterexample: with an absent box and tiling counts `(2,1,1)`
on a non-periodic template, the `ValueError` is raised only *after*
the template's box has been assigned, so the failure is not free of
mutation. -/
theorem C5_counterexample :
    exTileNoBox.box = none ∧
    tiledCompound exTileNoBox (2, 1, 1) none =
      .configError { exTileNoBox with
        box := some { lengths := ⟨1, 2, 3⟩, angles := ⟨90, 90, 90⟩ } } ∧
    (tiledCompound exTileNoBox (2, 1, 1) none).tileAfter.box ≠ exTileNoBox.box :=
  ⟨rfl, rfl, by decide⟩

/-- C8: when a StitchingError aborts the scan, the object's bond list
(and particle list) is exactly as it was after replication: removals
and additions are queued during the scan and applied only after it
completes, removals first. -/
theorem C8_failure_atomicity (tile : Tile) (n : ℕ × ℕ × ℕ) (kw : Option ℕ)
    (st : TiledState) (t' : Tile) (h : tiledCompound tile n kw = .stitchError st t') :
    st.bonds = replicatedBonds tile n ∧ st.particles = tcParts tile n := by
  obtain ⟨h1, _⟩ := tiledCompound_stitch_inv h
  rw [h1]
  exact ⟨rfl, rfl⟩

theorem C8_failure_atomicity_witness :
    stFail.bonds = replicatedBonds exTileGood (2, 1, 1) ∧
      stFail.particles = tcParts exTileGood (2, 1, 1) :=
  C8_failure_atomicity exTileGood (2, 1, 1) (some 1) stFail tFail rfl

/-- C9 (amended): when the call *completes successfully*, every output
particle's template index is cleared to `none` and the kdtree
attribute is deleted (for a template whose particles carry no stale
index attribute, covering the fast path as well).  The cleanup is not
performed on the StitchingError path — see the counterexample. -/
theorem C9_cleanup_on_success (tile : Tile) (n : ℕ × ℕ × ℕ) (kw : Option ℕ)
    (st : TiledState) (t' : Tile) (h : tiledCompound tile n kw = .ok st t')
    (hfresh : ∀ x ∈ tile.indices, x = (none : Option ℕ)) :
    (∀ p ∈ st.particles, p.tmplIdx = none) ∧ st.hasKdtree = false := by
  cases hone : allOne n with
  | true =>
    obtain ⟨h1, _⟩ := tiledCompound_ok_fast_inv h hone
    subst h1
    refine ⟨?_, rfl⟩
    intro p hp
    obtain ⟨t, _, rfl⟩ := List.mem_map.mp hp
    show tile.indices.getD t none = none
    rw [List.getD_eq_getElem?_getD]
    cases hel : tile.indices[t]? with
    | none => rfl
    | some v =>
      have hv : v ∈ tile.indices := List.getElem?_mem hel
      rw [Option.getD_some]
      exact hfresh v hv
  | false =>
    obtain ⟨rem, add, _, h1, _⟩ := tiledCompound_ok_slow_inv h hone
    subst h1
    refine ⟨?_, rfl⟩
    intro p hp
    obtain ⟨p', _, rfl⟩ := List.mem_map.mp hp
    rfl

theorem C9_cleanup_on_success_witness : stGood.hasKdtree = false :=
  (C9_cleanup_on_success exTileGood (2, 1, 1) none stGood tGood rfl
    (fun x hx => absurd hx (List.not_mem_nil x))).2

/-- C9 counterexample: on the StitchingError path (here forced with
`k = 1`) the kdtree attribute is still present and the particles'
template indices are still set at the moment the error is raised —
the cleanup of lines 130-133 runs only on the success path. -/
theorem C9_counterexample :
    tiledCompound exTileGood (2, 1, 1) (some 1) = .stitchError stFail tFail ∧
    stFail.hasKdtree = true ∧
    (stFail.particles.getD 0 default).tmplIdx = some 0 :=
  ⟨rfl, rfl, rfl⟩

/-- C7: a bond of the tiled structure is removed (and rewired) only if
its endpoints' indices form, in some order, a pair of the periodic
bond set *and* its minimum-image distance under the output box exceeds
`dist_thresh`; every replicated bond failing either condition is still
in the final bond list. -/
theorem C7_untouched_bonds (tile : Tile) (n : ℕ × ℕ × ℕ) (kw : Option ℕ)
    (st : TiledState) (t' : Tile) (hok : tiledCompound tile n kw = .ok st t')
    (hone : allOne n = false) (g1 g2 : ℕ)
    (hb : (g1, g2) ∈ replicatedBonds tile n)
    (hnc : bondCandidateParts (tcParts tile n) (tcOutBox tile n).lengths tile.periodicity
      (tcPB tile) (tcThresh tile) g1 g2 = false) :
    (g1, g2) ∈ st.bonds := by
  obtain ⟨rem, add, hscan, hst, _⟩ := tiledCompound_ok_slow_inv hok hone
  subst hst
  show (g1, g2) ∈ addAllBonds (removeBonds (replicatedBonds tile n) rem) add
  apply mem_addAllBonds_of_mem
  rw [mem_removeBonds]
  refine ⟨hb, fun hc => ?_⟩
  rcases hc with hc | hc
  · rcases repairScan_rem_char hscan g1 g2 hc with h0 | ⟨_, hcand⟩
    · exact absurd h0 (List.not_mem_nil _)
    · rw [hnc] at hcand
      exact Bool.noConfusion hcand
  · rcases repairScan_rem_char hscan g2 g1 hc with h0 | ⟨_, hcand⟩
    · exact absurd h0 (List.not_mem_nil _)
    · rw [bondCandidateParts_comm, hnc] at hcand
      exact Bool.noConfusion hcand

theorem C7_untouched_bonds_witness : ((0 : ℕ), (2 : ℕ)) ∈ stGood.bonds :=
  C7_untouched_bonds exTileGood (2, 1, 1) none stGood tGood rfl rfl 0 2
    (by decide) (by rfl)

/-- C3 (amended): for every successful run the output particle count is
the product of the tile counts times the template particle count; when
some count exceeds 1, the output holds exactly one *independent clone*
per grid coordinate, translated by `(i*Lx, j*Ly, k*Lz)`; but when the
counts are `(1,1,1)` the template object itself (not a clone) is
incorporated, untranslated. -/
theorem C3_replication (tile : Tile) (n : ℕ × ℕ × ℕ) (kw : Option ℕ)
    (st : TiledState) (t' : Tile) (hok : tiledCompound tile n kw = .ok st t') :
    st.particles.length = n.1 * n.2.1 * n.2.2 * tile.particles.length ∧
    (allOne n = false →
      (∀ inst ∈ st.tiles, inst.isClone = true) ∧
      ∀ i j k : ℕ, i < n.1 → j < n.2.1 → k < n.2.2 →
        (st.tiles.map TileInstance.ijk).count (i, j, k) = 1 ∧
        ∀ t : ℕ, t < tile.particles.length →
          (st.particles.getD (((i * n.2.1 + j) * n.2.2 + k) * tile.particles.length + t)
              default).pos =
            vadd (tile.particles.getD t default)
              (offsetOf (i, j, k) (resolveBox tile).lengths)) ∧
    (allOne n = true →
      st.tiles = [⟨(0, 0, 0), false, tileLabel (defaultName tile n) (0, 0, 0)⟩] ∧
      ∀ t : ℕ, t < tile.particles.length →
        (st.particles.getD t default).pos = tile.particles.getD t default) := by
  cases hone : allOne n with
  | true =>
    obtain ⟨h1, _⟩ := tiledCompound_ok_fast_inv hok hone
    subst h1
    have hn1 : n.1 = 1 ∧ n.2.1 = 1 ∧ n.2.2 = 1 := by
      unfold allOne at hone
      simp only [Bool.and_eq_true, beq_iff_eq] at hone
      exact ⟨hone.1.1, hone.1.2, hone.2⟩
    refine ⟨?_, fun hfalse => Bool.noConfusion hfalse, fun _ => ⟨rfl, ?_⟩⟩
    · show ((List.range tile.particles.length).map _).length = _
      rw [List.length_map, List.length_range, hn1.1, hn1.2.1, hn1.2.2]
      ring
    · intro t ht
      show (((List.range tile.particles.length).map fun t =>
        ({ pos := tile.particles.getD t default,
           tmplIdx := tile.indices.getD t none } : OutParticle)).getD t default).pos = _
      rw [getD_map_range _ ht]
  | false =>
    obtain ⟨rem, add, _, h1, _⟩ := tiledCompound_ok_slow_inv hok hone
    subst h1
    refine ⟨?_, fun _ => ⟨?_, ?_⟩, fun htrue => Bool.noConfusion htrue⟩
    · show ((tcParts tile n).map _).length = _
      rw [List.length_map]
      unfold tcParts
      rw [replicatedParticles_length, gridCoords_length]
      ring
    · intro inst hinst
      obtain ⟨c, _, rfl⟩ := List.mem_map.mp hinst
      rfl
    · intro i j k hi hj hk
      have hmap : (tcInsts tile n).map TileInstance.ijk = gridCoords n := by
        unfold tcInsts
        rw [List.map_map,
          show (TileInstance.ijk ∘ fun c =>
            ({ ijk := c, isClone := true,
               label := tileLabel (defaultName tile n) c } : TileInstance)) = id from
            funext fun c => rfl,
          List.map_id]
      have h1 : i * n.2.1 + j + 1 ≤ n.1 * n.2.1 := by
        have he1 : (i + 1) * n.2.1 = i * n.2.1 + n.2.1 := by ring
        have he2 : (i + 1) * n.2.1 ≤ n.1 * n.2.1 :=
          Nat.mul_le_mul_right _ (Nat.succ_le_of_lt hi)
        omega
      have hr : (i * n.2.1 + j) * n.2.2 + k < (gridCoords n).length := by
        rw [gridCoords_length]
        have he1 : (i * n.2.1 + j + 1) * n.2.2 = (i * n.2.1 + j) * n.2.2 + n.2.2 := by ring
        have he2 : (i * n.2.1 + j + 1) * n.2.2 ≤ n.1 * n.2.1 * n.2.2 :=
          Nat.mul_le_mul_right _ h1
        have he3 : n.1 * n.2.1 * n.2.2 = n.1 * (n.2.1 * n.2.2) := by ring
        omega
      constructor
      · rw [show (tcOkState tile n rem add).tiles = tcInsts tile n from rfl, hmap]
        exact count_eq_one_of_nodup_mem (gridCoords_nodup n)
          ((@mem_gridCoords n (i, j, k)).mpr ⟨hi, hj, hk⟩)
      · intro t ht
        have hglobal : ((i * n.2.1 + j) * n.2.2 + k) * tile.particles.length + t <
            (tcParts tile n).length := by
          show _ < (replicatedParticles tile n (resolveBox tile).lengths).length
          rw [replicatedParticles_length]
          have he1 : ((i * n.2.1 + j) * n.2.2 + k + 1) * tile.particles.length =
              ((i * n.2.1 + j) * n.2.2 + k) * tile.particles.length +
                tile.particles.length := by ring
          have he2 : ((i * n.2.1 + j) * n.2.2 + k + 1) * tile.particles.length ≤
              (gridCoords n).length * tile.particles.length :=
            Nat.mul_le_mul_right _ (Nat.succ_le_of_lt hr)
          omega
        show (((tcParts tile n).map fun p : OutParticle => { p with tmplIdx := none }).getD
            (((i * n.2.1 + j) * n.2.2 + k) * tile.particles.length + t) default).pos = _
        rw [getD_map_lt _ hglobal default default]
        show ((replicatedParticles tile n (resolveBox tile).lengths).getD
            (((i * n.2.1 + j) * n.2.2 + k) * tile.particles.length + t) default).pos = _
        rw [replicatedParticles_getD tile _ hr ht, gridCoords_getD hi hj hk]

theorem C3_replication_witness :
    stGood.particles.length = 2 * 1 * 1 * exTileGood.particles.length ∧
      (stGood.particles.getD (((1 * 1 + 0) * 1 + 0) * exTileGood.particles.length + 1)
          default).pos =
        vadd (exTileGood.particles.getD 1 default)
          (offsetOf (1, 0, 0) (resolveBox exTileGood).lengths) :=
  ⟨(C3_replication exTileGood (2, 1, 1) none stGood tGood rfl).1,
    ((((C3_replication exTileGood (2, 1, 1) none stGood tGood rfl).2.1 rfl).2
      1 0 0 (by decide) (by decide) (by decide)).2 1 (by decide))⟩

theorem bondPresent_symm {bs : List (ℕ × ℕ)} {a b : ℕ} (h : bondPresent bs a b) :
    bondPresent bs b a := h.symm

/-- The deterministic image lookup the repair performs for a bond of
the replicated structure: the particle that replaces `g2` as seen from
`g1` (`image2 = self._find_particle_image(particle1, particle2, ...)`). -/
def stitchImage (tile : Tile) (n : ℕ × ℕ × ℕ) (kw : Option ℕ) (g1 g2 : ℕ) : Option ℕ :=
  (findParticleImage (tcParts tile n) (tcOutBox tile n).lengths tile.periodicity
    ((tcParts tile n).getD g1 default) ((tcParts tile n).getD g2 default) kw).toOption

/-- C1 (amended): after a successful tiling with some count greater
than 1, every replicated bond whose endpoints' indices form a pair of
the periodic bond set and whose minimum-image distance exceeds
`dist_thresh` is rewired so that each endpoint is bonded to the image
found for the opposite endpoint — a particle carrying the opposite
endpoint's template index (global index congruent mod the template
particle count).  The image's distance is *not* bounded by
`dist_thresh`: bonds longer than `dist_thresh` can remain in the final
structure (see the counterexample). -/
theorem C1_rebonding (tile : Tile) (n : ℕ × ℕ × ℕ) (kw : Option ℕ)
    (st : TiledState) (t' : Tile) (hok : tiledCompound tile n kw = .ok st t')
    (hone : allOne n = false) (g1 g2 : ℕ)
    (hb : (g1, g2) ∈ replicatedBonds tile n)
    (hcand : bondCandidateParts (tcParts tile n) (tcOutBox tile n).lengths tile.periodicity
      (tcPB tile) (tcThresh tile) g1 g2 = true)
    (hg1 : g1 < (tcParts tile n).length) (hg2 : g2 < (tcParts tile n).length) :
    (stitchImage tile n kw g1 g2).isSome = true ∧
    bondPresent st.bonds g1 ((stitchImage tile n kw g1 g2).getD 0) ∧
    (stitchImage tile n kw g1 g2).getD 0 % tile.particles.length =
      g2 % tile.particles.length ∧
    (stitchImage tile n kw g2 g1).isSome = true ∧
    bondPresent st.bonds g2 ((stitchImage tile n kw g2 g1).getD 0) ∧
    (stitchImage tile n kw g2 g1).getD 0 % tile.particles.length =
      g1 % tile.particles.length := by
  obtain ⟨rem, add, hscan, hst, _⟩ := tiledCompound_ok_slow_inv hok hone
  obtain ⟨i2, i1, hf2, hf1, ha2, ha1⟩ := repairScan_rebonds hscan g1 g2 hb hcand
  subst hst
  have hsi2 : stitchImage tile n kw g1 g2 = some i2 := by rw [stitchImage, hf2]; rfl
  have hsi1 : stitchImage tile n kw g2 g1 = some i1 := by rw [stitchImage, hf1]; rfl
  have hi2lt : i2 < (tcParts tile n).length := queryKdtree_mem_lt (firstMatchIdx_ok hf2).1
  have hi1lt : i1 < (tcParts tile n).length := queryKdtree_mem_lt (firstMatchIdx_ok hf1).1
  have hmod : ∀ i g : ℕ, i < (tcParts tile n).length → g < (tcParts tile n).length →
      ((tcParts tile n).getD i default).tmplIdx = ((tcParts tile n).getD g default).tmplIdx →
      i % tile.particles.length = g % tile.particles.length := by
    intro i g hi hg hidx
    rw [show tcParts tile n = replicatedParticles tile n (resolveBox tile).lengths from rfl]
      at hidx hi hg
    rw [replicatedParticles_tmplIdx tile n _ hi, replicatedParticles_tmplIdx tile n _ hg]
      at hidx
    exact Option.some.inj hidx
  have hpres : ∀ a i : ℕ, ((a, i) ∈ add ∨ (i, a) ∈ add) →
      bondPresent (tcOkState tile n rem add).bonds a i := by
    intro a i hai
    show bondPresent (addAllBonds (removeBonds (replicatedBonds tile n) rem) add) a i
    rcases hai with h | h
    · exact addAllBonds_present add h _
    · exact bondPresent_symm (addAllBonds_present add h _)
  refine ⟨by rw [hsi2]; rfl, ?_, ?_, by rw [hsi1]; rfl, ?_, ?_⟩
  · rw [hsi2]
    exact hpres g1 i2 ha2
  · rw [hsi2]
    exact hmod i2 g2 hi2lt hg2 (firstMatchIdx_ok hf2).2
  · rw [hsi1]
    exact hpres g2 i1 ha1
  · rw [hsi1]
    exact hmod i1 g1 hi1lt hg1 (firstMatchIdx_ok hf1).2

theorem C1_rebonding_witness :
    (stitchImage exTileGood (2, 1, 1) none 0 1).isSome = true ∧
    bondPresent stGood.bonds 0 ((stitchImage exTileGood (2, 1, 1) none 0 1).getD 0) ∧
    (stitchImage exTileGood (2, 1, 1) none 0 1).getD 0 % exTileGood.particles.length =
      1 % exTileGood.particles.length ∧
    (stitchImage exTileGood (2, 1, 1) none 1 0).isSome = true ∧
    bondPresent stGood.bonds 1 ((stitchImage exTileGood (2, 1, 1) none 1 0).getD 0) ∧
    (stitchImage exTileGood (2, 1, 1) none 1 0).getD 0 % exTileGood.particles.length =
      0 % exTileGood.particles.length :=
  C1_rebonding exTileGood (2, 1, 1) none stGood tGood rfl rfl 0 1 (by decide) (by rfl)
    (by decide) (by decide)

/-- C1 counterexample: a successful tiling (no StitchingError) whose
final structure still contains a bond — `(0, 1)`, the replica of the
template's only bond — whose minimum-image distance under the output
box exceeds `dist_thresh`.  The template bond is long along the
non-periodic y axis, so it enters the periodic bond set, is removed,
and is rewired straight back to the same too-distant partner. -/
theorem C1_counterexample :
    tiledCompound exTileBad (2, 1, 1) none = .ok stBad tBad ∧
    (0, 1) ∈ stBad.bonds ∧
    exceedsSq
      (minImageSq (tcOutBox exTileBad (2, 1, 1)).lengths exTileBad.periodicity
        (stBad.particles.getD 0 default).pos (stBad.particles.getD 1 default).pos)
      (tcThresh exTileBad) = true :=
  ⟨rfl, by decide, rfl⟩

/-- C3 counterexample: with the valid tile counts `(1,1,1)` the single
child of the output is the template object itself (line 54 adds
`tile`, not `clone(tile)`), so the output does not contain an
independently-owned copy at each grid coordinate. -/
theorem C3_counterexample :
    tiledCompound exTileGood (1, 1, 1) none =
      .ok (tcFastState exTileGood (1, 1, 1)) (tcTileB exTileGood) ∧
    ∀ inst ∈ (tcFastState exTileGood (1, 1, 1)).tiles, inst.isClone = false :=
  ⟨rfl, by decide⟩
